import Mathlib

/-!
Shallow embedding of the diceydice dice-notation interpreter
(src/diceydice/parser.py and src/diceydice/evaluate.py) together with
proofs about its tokenizer, evaluator and value model.

Numbers: the Python code encodes a result as a `complex` number whose real
part is the magnitude and whose imaginary part is the effect count
(`Number = Union[int, complex]` in evaluate.py).  Every value the evaluator
builds is a Gaussian integer, embedded here as a pair (magnitude, effects).

Errors: the repository's `diceydice.exceptions` module (DiceSyntaxError,
TokenizeError) is referenced but not present under src/; exceptions are
embedded as `Except String` results carrying the message the code raises.
-/

namespace Diceydice

/-- Evaluation result numbers: (magnitude, effects), the Gaussian-integer
reading of the Python complex encoding. -/
abbrev Number := Int × Int

/-- Comparison operators of `evaluate.Operator`. -/
inductive Oper
  | ge | gt | le | lt | eq
deriving DecidableEq, Repr

/-- Selectors of `evaluate.Selector` and subclasses `Highest`, `Lowest`,
`Threshold`.  `all` is the base `Selector()` (name "all", count 0); a
`Threshold` stores its threshold value in the `count` field. -/
inductive Selector
  | all
  | highest (count : Int)
  | lowest (count : Int)
  | threshold (oper : Oper) (value : Int)
deriving DecidableEq, Repr

/-- Transformers attached to a `DiceGroup`: `KeepSelected(selector)`
(with `IdentityTransformer = KeepSelected(Selector())` embedded as
`keep .all`) and `CountSelected(selector, force_min, force_max)`. -/
inductive Transformer
  | keep (sel : Selector)
  | count (sel : Selector) (forceMin forceMax : Option Number)
deriving DecidableEq, Repr

/-- The `DiceComputation` family of evaluate.py: `DieRoll(sides, result)`,
`CombatDieRoll(result, effect)`, `Modifier(value)` and
`DiceGroup(dice, transformer, is_closed)`.  Every group the evaluation
pipeline constructs is a `DiceSum` (identity-defaulted `DiceGroup`), so a
single group constructor covers both classes. -/
inductive DiceComputation
  | die (sides result : Int)
  | combat (result : Int) (effect : Bool)
  | modifier (value : Int)
  | group (dice : List DiceComputation) (tf : Transformer) (isClosed : Bool)

/-- Structural keys capturing Python `__eq__` on computations: `DieRoll`
compares (sides, result); `DiceGroup` compares the child list and the group
value, ignoring transformer and closed flag (`DiceGroup.__eq__`).
`CombatDieRoll` and `Modifier` have no `__eq__` and compare by object
identity in Python; structural keys are observationally equivalent for the
selection code, because selectors order and filter only by value and select
stably, so they never separate structurally equal computations. -/
inductive CompKey
  | die (sides result : Int)
  | combat (result : Int) (effect : Bool)
  | mod (value : Int)
  | node (children : List CompKey) (val : Number)

mutual

/-- Boolean structural equality on keys. -/
def keyBeq : CompKey → CompKey → Bool
  | .die s r, .die s2 r2 => s == s2 && r == r2
  | .combat r e, .combat r2 e2 => r == r2 && e == e2
  | .mod v, .mod v2 => v == v2
  | .node cs v, .node cs2 v2 => keyListBeq cs cs2 && v == v2
  | _, _ => false

/-- Boolean structural equality on key lists. -/
def keyListBeq : List CompKey → List CompKey → Bool
  | [], [] => true
  | c :: cs, c2 :: cs2 => keyBeq c c2 && keyListBeq cs cs2
  | _, _ => false

end

mutual

theorem keyBeq_eq_true_iff : ∀ a b : CompKey, keyBeq a b = true ↔ a = b
  | .die _ _, .die _ _ => by simp [keyBeq]
  | .die _ _, .combat _ _ => by simp [keyBeq]
  | .die _ _, .mod _ => by simp [keyBeq]
  | .die _ _, .node _ _ => by simp [keyBeq]
  | .combat _ _, .die _ _ => by simp [keyBeq]
  | .combat _ _, .combat _ _ => by simp [keyBeq]
  | .combat _ _, .mod _ => by simp [keyBeq]
  | .combat _ _, .node _ _ => by simp [keyBeq]
  | .mod _, .die _ _ => by simp [keyBeq]
  | .mod _, .combat _ _ => by simp [keyBeq]
  | .mod _, .mod _ => by simp [keyBeq]
  | .mod _, .node _ _ => by simp [keyBeq]
  | .node _ _, .die _ _ => by simp [keyBeq]
  | .node _ _, .combat _ _ => by simp [keyBeq]
  | .node _ _, .mod _ => by simp [keyBeq]
  | .node cs v, .node cs2 v2 => by
    simp [keyBeq, keyListBeq_eq_true_iff cs cs2]

theorem keyListBeq_eq_true_iff : ∀ a b : List CompKey, keyListBeq a b = true ↔ a = b
  | [], [] => by simp [keyListBeq]
  | [], _ :: _ => by simp [keyListBeq]
  | _ :: _, [] => by simp [keyListBeq]
  | c :: cs, c2 :: cs2 => by
    simp [keyListBeq, keyBeq_eq_true_iff c c2, keyListBeq_eq_true_iff cs cs2]

end

instance : DecidableEq CompKey := fun a b =>
  decidable_of_iff (keyBeq a b = true) (keyBeq_eq_true_iff a b)

/-- Entry handed to a selector: the Python-equality key of a child
computation together with its value. -/
abbrev Entry := CompKey × Number

/-- Value recorded in a key (Python equality determines the value). -/
def CompKey.valOf : CompKey → Number
  | .die _ r => (r, 0)
  | .combat r e => (r, if e then 1 else 0)
  | .mod v => (v, 0)
  | .node _ v => v

/-- Application of `evaluate.Operator.__call__` (operator module functions). -/
def opApply : Oper → Int → Int → Bool
  | .ge, a, b => decide (a ≥ b)
  | .gt, a, b => decide (a > b)
  | .le, a, b => decide (a ≤ b)
  | .lt, a, b => decide (a < b)
  | .eq, a, b => decide (a = b)

/-- Descending order used by `heapq.nlargest` (stable: equal magnitudes keep
input order, matching `sorted(iterable, reverse=True)[:n]`). -/
def descRel (a b : Entry) : Prop := b.2.1 ≤ a.2.1

instance : DecidableRel descRel := fun a b => Int.decLe b.2.1 a.2.1

/-- Ascending order used by `heapq.nsmallest` (equivalent to
`sorted(iterable)[:n]`, stable). -/
def ascRel (a b : Entry) : Prop := a.2.1 ≤ b.2.1

instance : DecidableRel ascRel := fun a b => Int.decLe a.2.1 b.2.1

/-- Selector application (`Selector.__call__` and overrides): `all` returns
the list, `Highest`/`Lowest` return the stable top/bottom `count` by
magnitude (comparisons on `DiceComputation` use `int(self)`), `Threshold`
filters by comparing each child's `result` against the threshold. -/
def selectEntries : Selector → List Entry → List Entry
  | .all, l => l
  | .highest n, l => (List.insertionSort descRel l).take n.toNat
  | .lowest n, l => (List.insertionSort ascRel l).take n.toNat
  | .threshold op t, l => l.filter (fun e => opApply op e.2.1 t)

/-- Marking pass of `KeepSelected.__call__`: walk the children in order and
yield the child's value when it is still in the kept list (removing the
first match, `kept_dice.remove(die)`), else 0. -/
def markKeep (kept : List CompKey) : List Entry → List Number
  | [] => []
  | e :: rest =>
    if e.1 ∈ kept then e.2 :: markKeep (kept.erase e.1) rest
    else (0, 0) :: markKeep kept rest

/-- Crit override of `CountSelected.override`: only a `DieRoll` that rolled
its natural 1 or its natural maximum is overridden, natural 1 to
`force_min` and otherwise to `force_max`. -/
def critOverride (fmin fmax : Option Number) : CompKey → Option Number
  | .die s r => if r = 1 || r = s then (if r = 1 then fmin else fmax) else none
  | _ => none

/-- Marking pass of `CountSelected.__call__`: selected children count 1,
unselected count 0, and a truthy crit override replaces either. -/
def markCount (fmin fmax : Option Number) (kept : List CompKey) :
    List Entry → List Number
  | [] => []
  | e :: rest =>
    let base : Number := if e.1 ∈ kept then (1, 0) else (0, 0)
    let contrib : Number :=
      match critOverride fmin fmax e.1 with
      | none => base
      | some v => if v = (0, 0) then base else v
    contrib :: markCount fmin fmax (if e.1 ∈ kept then kept.erase e.1 else kept) rest

/-- Transformer application (`DiceTransformer.__call__`). -/
def applyTf : Transformer → List Entry → List Number
  | .keep sel, l => markKeep ((selectEntries sel l).map (·.1)) l
  | .count sel fmin fmax, l => markCount fmin fmax ((selectEntries sel l).map (·.1)) l

mutual

/-- Value of a computation (`DiceComputation.value` and overrides): a die
contributes its result, a combat die its result plus one effect when
flagged, a modifier its value, and a group sums its transformer's output
over its children (`sum(self.transformer(self.dice))`). -/
def value : DiceComputation → Number
  | .die _ r => (r, 0)
  | .combat r e => (r, if e then 1 else 0)
  | .modifier v => (v, 0)
  | .group d tf _ => (applyTf tf (entries d)).sum

/-- Python-equality key of a computation. -/
def key : DiceComputation → CompKey
  | .die s r => .die s r
  | .combat r e => .combat r e
  | .modifier v => .mod v
  | .group d tf _ => .node (keys d) ((applyTf tf (entries d)).sum)

/-- Children paired with key and value, as the selector machinery sees them. -/
def entries : List DiceComputation → List Entry
  | [] => []
  | c :: cs => (key c, value c) :: entries cs

/-- Keys of a list of computations. -/
def keys : List DiceComputation → List CompKey
  | [] => []
  | c :: cs => key c :: keys cs

end

/-- Magnitude of a computation (`DiceComputation.result`, the real part). -/
def resultOf (c : DiceComputation) : Int := (value c).1

/-- Effect count of a computation (`DiceComputation.effects`, the imaginary
part). -/
def effectsOf (c : DiceComputation) : Int := (value c).2

/-- Indexes reported kept by `DiceGroup.kept_indexes`: positions whose
transformed value has nonzero real part. -/
def keptIndexes (c : DiceComputation) : List Nat :=
  match c with
  | .group d tf _ =>
    ((applyTf tf (entries d)).enum.filter (fun p => decide (p.2.1 ≠ 0))).map (·.1)
  | _ => []

/-- Tokens of parser.py.  `add`, `groupStart`, `groupEnd` are the singletons
`Token.ADD`, `Token.GROUP_START`, `Token.GROUP_END`; the rest embed the
`Constant`, `Dice`, `Combat` and `PostfixOperator` subclasses.  `eqOp`
stands for the `EQ` threshold class that evaluate.py imports and dispatches
on; parser.py defines no such token class, so `tokenize` never produces it. -/
inductive Tok
  | add
  | groupStart
  | groupEnd
  | dice (count sides : Int)
  | constant (value : Int)
  | combat (count : Int)
  | keepHighest (count : Int)
  | keepLowest (count : Int)
  | ge (threshold : Int)
  | gt (threshold : Int)
  | le (threshold : Int)
  | lt (threshold : Int)
  | critGE (threshold : Int)
  | critLE (threshold : Int)
  | eqOp (threshold : Int)
deriving DecidableEq, Repr

/-- Postfix operator discrimination (`isinstance(token, PostfixOperator)`). -/
def isPostfixTok : Tok → Bool
  | .keepHighest _ | .keepLowest _ => true
  | .ge _ | .gt _ | .le _ | .lt _ => true
  | .critGE _ | .critLE _ | .eqOp _ => true
  | _ => false

/-- Atom tokens (dice, combat dice, flat constants). -/
def isAtomTok : Tok → Bool
  | .dice _ _ | .combat _ | .constant _ => true
  | _ => false

/-- Display string of a token (`token_str`), used in error messages. -/
def tokStr : Tok → String
  | .add => "+"
  | .groupStart => "("
  | .groupEnd => ")"
  | .dice c s => toString c ++ "d" ++ toString s
  | .constant v => toString v
  | .combat c => toString c ++ "c"
  | .keepHighest c => "kh" ++ toString c
  | .keepLowest c => "kl" ++ toString c
  | .ge t => ">=" ++ toString t
  | .gt t => ">" ++ toString t
  | .le t => "<=" ++ toString t
  | .lt t => "<" ++ toString t
  | .critGE t => "->" ++ toString t
  | .critLE t => "<-" ++ toString t
  | .eqOp t => "==" ++ toString t

/-- Nodes on the eval_summation context stack: raw tokens or evaluated
computations (`ParseNode: TypeAlias = Union[Token, DiceComputation]`). -/
abbrev ParseNode := Sum Tok DiceComputation

/-- Randomness source.  Python injects `rng: Callable[[int], int]`, possibly
stateful; here the source is a function of the call index (dice are rolled
left to right, one call per die) and the number of sides of that call. -/
abbrev RNG := Nat → Int → Int

/-- Truthiness of a computation: groups are truthy when nonempty
(`DiceGroup.__bool__` via `__len__`), all leaves are truthy (default
object truthiness). -/
def truthy : DiceComputation → Bool
  | .group d _ _ => !d.isEmpty
  | _ => true

/-- Truthiness of a selector (`Selector.__bool__`: `count != 0`; a
`Threshold` stores its threshold in `count`). -/
def selTruthy : Selector → Bool
  | .all => false
  | .highest n => decide (n ≠ 0)
  | .lowest n => decide (n ≠ 0)
  | .threshold _ t => decide (t ≠ 0)

/-- Truthiness of a transformer (`KeepSelected.__bool__` and
`CountSelected.__bool__` both delegate to the selector). -/
def tfTruthy : Transformer → Bool
  | .keep sel => selTruthy sel
  | .count sel _ _ => selTruthy sel

/-- Closing a group (`DiceGroup.close` / `DiceSum.close`). -/
def close : DiceComputation → DiceComputation
  | .group d tf _ => .group d tf true
  | c => c

/-- Child list of a group. -/
def diceOf : DiceComputation → List DiceComputation
  | .group d _ _ => d
  | _ => []

/-- Helper `dice_list` of `DiceGroup.add_computation`. -/
def diceList : DiceComputation → List DiceComputation
  | .group d _ _ => d
  | c => [c]

/-- Helper `is_closed_group` of `DiceGroup.add_computation`. -/
def isClosedGroup : DiceComputation → Bool
  | .group _ _ c => c
  | _ => false

/-- Test for a group with a truthy (non-identity) transformer. -/
def hasTruthyTf : DiceComputation → Bool
  | .group _ tf _ => tfTruthy tf
  | _ => false

/-- The identity transformer (`IdentityTransformer`). -/
def idTf : Transformer := .keep .all

/-- Pure addition `DiceGroup.add_computation(left, right)`: falsy operands
are no-ops, closed groups and groups with a truthy transformer are kept
whole as single children, two open untransformed groups merge their child
lists, and a lone computation is appended to the other side's list.  The
final `TypeError` for two non-group operands is unreachable from the
evaluator (the left operand is always a group) and becomes an error value. -/
def addComputation (left right : DiceComputation) : Except String DiceComputation :=
  if truthy left = false || truthy right = false then
    let actual := if truthy left then left else right
    match actual with
    | .group d tf c => .ok (.group d tf c)
    | x => .ok (.group [x] idTf false)
  else if isClosedGroup left && isClosedGroup right then
    .ok (.group [left, right] idTf false)
  else if isClosedGroup left then
    .ok (.group (left :: diceList right) idTf false)
  else if isClosedGroup right then
    .ok (.group (diceList left ++ [right]) idTf false)
  else if hasTruthyTf left || hasTruthyTf right then
    .ok (.group [left, right] idTf false)
  else
    match left, right with
    | .group dl _ _, .group dr _ _ => .ok (.group (dl ++ dr) idTf false)
    | .group dl _ _, r => .ok (.group (dl ++ [r]) idTf false)
    | l, .group dr _ _ => .ok (.group (l :: dr) idTf false)
    | _, _ => .error "Unable to add"

/-- Selector construction `Highest(count)`: rejects non-positive counts
with a DiceSyntaxError. -/
def mkHighest (count : Int) : Except String Selector :=
  if count < 1 then .error "Cannot keep less than one die"
  else .ok (.highest count)

/-- Selector construction `Lowest(count)`: rejects non-positive counts. -/
def mkLowest (count : Int) : Except String Selector :=
  if count < 1 then .error "Cannot keep less than one die"
  else .ok (.lowest count)

/-- Postfix application `DiceRoller.apply_postfix`: the operand must be a
`DiceSum` (any group built by this pipeline); otherwise a DiceSyntaxError.
Keep operators build a `KeepSelected` transformer via the validating
`Highest`/`Lowest` constructors; threshold operators build a
`CountSelected`, the crit variants with force_min/force_max overrides
(`crit_le` forces 2 and i, `crit_ge` forces i and 2). -/
def applyPostfixOp (node : ParseNode) (pf : Tok) : Except String DiceComputation :=
  match node with
  | .inr (.group dice _ _) =>
    match pf with
    | .keepHighest n => (mkHighest n).map fun sel => .group dice (.keep sel) false
    | .keepLowest n => (mkLowest n).map fun sel => .group dice (.keep sel) false
    | .eqOp t => .ok (.group dice (.count (.threshold .eq t) none none) false)
    | .le t => .ok (.group dice (.count (.threshold .le t) none none) false)
    | .critLE t => .ok (.group dice (.count (.threshold .le t) (some (2, 0)) (some (0, 1))) false)
    | .lt t => .ok (.group dice (.count (.threshold .lt t) none none) false)
    | .ge t => .ok (.group dice (.count (.threshold .ge t) none none) false)
    | .critGE t => .ok (.group dice (.count (.threshold .ge t) (some (0, 1)) (some (2, 0))) false)
    | .gt t => .ok (.group dice (.count (.threshold .gt t) none none) false)
    | other => .error ("Unhandled postfix operator " ++ tokStr other)
  | _ => .error (tokStr pf ++ " operator must follow dice roll or group")

/-- Dice evaluation `DiceRoller.evaluate_dice`: roll `count` dice of
`sides` faces (one rng call each, in order) into an open identity
`DiceSum`. -/
def evaluateDice (count sides : Int) (rng : RNG) (ctr : Nat) :
    DiceComputation × Nat :=
  (.group ((List.range count.toNat).map fun i => .die sides (rng (ctr + i) sides))
      idTf false,
    ctr + count.toNat)

/-- Combat-die table `CombatDieRoll.from_d6`. -/
def combatFromD6 (r : Int) : DiceComputation :=
  if r = 1 then .combat 1 false
  else if r = 2 then .combat 2 false
  else if r = 3 || r = 4 then .combat 0 false
  else .combat 1 true

/-- Combat evaluation `DiceRoller.evaluate_combat`: roll `count` d6 and map
each through the combat-die table. -/
def evaluateCombat (count : Int) (rng : RNG) (ctr : Nat) :
    DiceComputation × Nat :=
  (.group ((List.range count.toNat).map fun i => combatFromD6 (rng (ctr + i) 6))
      idTf false,
    ctr + count.toNat)

/-- Loop body of `DiceRoller.evaluate_group`: fold the nodes into an
accumulator starting from `DiceSum([])` via `+=` (add_computation),
rolling raw `Dice` tokens, skipping `Token.ADD`, rejecting other tokens,
and close the result. -/
def evalGroupAux (rng : RNG) :
    List ParseNode → DiceComputation → Nat → Except String (DiceComputation × Nat)
  | [], acc, ctr => .ok (close acc, ctr)
  | node :: rest, acc, ctr =>
    match node with
    | .inl (.dice c s) =>
      let rolled := evaluateDice c s rng ctr
      match addComputation acc rolled.1 with
      | .error e => .error e
      | .ok acc2 => evalGroupAux rng rest acc2 rolled.2
    | .inl .add => evalGroupAux rng rest acc ctr
    | .inl t => .error ("Illegal token " ++ tokStr t ++ " in group")
    | .inr comp =>
      match addComputation acc comp with
      | .error e => .error e
      | .ok acc2 => evalGroupAux rng rest acc2 ctr

/-- Group evaluation `DiceRoller.evaluate_group` (result is closed). -/
def evaluateGroup (rng : RNG) (nodes : List ParseNode) (ctr : Nat) :
    Except String (DiceComputation × Nat) :=
  evalGroupAux rng nodes (.group [] idTf false) ctr

/-- Stack scan for `Token.GROUP_END`: pop context items (most recent first)
until the matching `GROUP_START`; `none` when the stack runs out
(Python's `IndexError` on `context.pop()`). -/
def splitAtGroupStart : List ParseNode → Option (List ParseNode × List ParseNode)
  | [] => none
  | .inl .groupStart :: rest => some ([], rest)
  | x :: rest =>
    match splitAtGroupStart rest with
    | none => none
    | some (grp, rem) => some (x :: grp, rem)

/-- Main loop of `DiceRoller.eval_summation` over the token stream.  The
context stack has its most recent element first; `Token.ADD` matches no
branch of the Python if/elif chain and is dropped. -/
def evalSumAux (rng : RNG) :
    List Tok → List ParseNode → Nat → Except String DiceComputation
  | [], context, ctr =>
    match evaluateGroup rng context.reverse ctr with
    | .error e => .error e
    | .ok (g, _) => .ok g
  | t :: ts, context, ctr =>
    match t with
    | .groupStart => evalSumAux rng ts (.inl .groupStart :: context) ctr
    | .groupEnd =>
      match splitAtGroupStart context with
      | none => .error "pop from empty list"
      | some (grp, rest) =>
        match evaluateGroup rng grp.reverse ctr with
        | .error e => .error e
        | .ok (g, ctr2) => evalSumAux rng ts (.inr g :: rest) ctr2
    | .dice c s =>
      let rolled := evaluateDice c s rng ctr
      evalSumAux rng ts (.inr rolled.1 :: context) rolled.2
    | .combat c =>
      let rolled := evaluateCombat c rng ctr
      evalSumAux rng ts (.inr rolled.1 :: context) rolled.2
    | .constant v => evalSumAux rng ts (.inr (.modifier v) :: context) ctr
    | .add => evalSumAux rng ts context ctr
    | pf =>
      match context with
      | [] => .error "pop from empty list"
      | node :: rest =>
        match applyPostfixOp node pf with
        | .error e => .error e
        | .ok g => evalSumAux rng ts (.inr g :: rest) ctr

/-- Evaluation `DiceRoller.eval_summation` (and `DiceRoller.evaluate`) of a
token stream with a given randomness source. -/
def evalSummation (rng : RNG) (tokens : List Tok) : Except String DiceComputation :=
  evalSumAux rng tokens [] 0

/-!
Tokenizer of parser.py.  `tokenize` lowercases the input and scans it with
`re.finditer` over the alternation of the registered token regexes in
reverse registration order:
  `(\d*)c | ((?:k?[hl])|<-|->|(?:[<>]=?))(\d*) | (\d+)d(\d+) | (-?)\s*(\d+)\b | \S`
then maps `Token.from_str` over the matched substrings.  The scanners below
implement exactly these patterns (each is deterministic: the regex engine's
backtracking never changes the outcome for these alternatives).
-/

/-- Python `\s` for the ASCII range. -/
def isPySpace (c : Char) : Bool :=
  c = ' ' || c = '\t' || c = '\n' || c = '\r' || c = '\x0b' || c = '\x0c'

/-- Python `\w` for the ASCII range (letters, digits, underscore). -/
def isWordChar (c : Char) : Bool :=
  c.isAlphanum || c = '_'

/-- Length of the leading run of decimal digits. -/
def digitSpan : List Char → Nat
  | [] => 0
  | c :: cs => if c.isDigit then digitSpan cs + 1 else 0

/-- Length of the leading run of whitespace. -/
def spaceSpan : List Char → Nat
  | [] => 0
  | c :: cs => if isPySpace c then spaceSpan cs + 1 else 0

/-- Numeric value of a digit run (`int` on a decimal string). -/
def digitsToNat (s : List Char) : Nat :=
  s.foldl (fun a c => a * 10 + (c.toNat - 48)) 0

/-- Match `(\d*)c` at the head of the input, returning the matched length. -/
def matchCombatTok (s : List Char) : Option Nat :=
  let d := digitSpan s
  match s.drop d with
  | 'c' :: _ => some (d + 1)
  | _ => none

/-- Match the operator alternation `(?:k?[hl])|<-|->|(?:[<>]=?)` at the
head, in that order of alternatives. -/
def matchOperHead : List Char → Option Nat
  | 'k' :: 'h' :: _ => some 2
  | 'k' :: 'l' :: _ => some 2
  | 'h' :: _ => some 1
  | 'l' :: _ => some 1
  | '<' :: '-' :: _ => some 2
  | '-' :: '>' :: _ => some 2
  | '<' :: '=' :: _ => some 2
  | '<' :: _ => some 1
  | '>' :: '=' :: _ => some 2
  | '>' :: _ => some 1
  | _ => none

/-- Match the postfix-operator pattern (operator head then `(\d*)`). -/
def matchPostfixTok (s : List Char) : Option Nat :=
  match matchOperHead s with
  | none => none
  | some n => some (n + digitSpan (s.drop n))

/-- Match `(\d+)d(\d+)` at the head. -/
def matchDiceTok (s : List Char) : Option Nat :=
  let d1 := digitSpan s
  if d1 = 0 then none
  else
    match s.drop d1 with
    | 'd' :: rest =>
      let d2 := digitSpan rest
      if d2 = 0 then none else some (d1 + 1 + d2)
    | _ => none

/-- Match `(-?)\s*(\d+)\b` at the head: optional minus, whitespace, digits,
then a word boundary (end of input or a non-word character). -/
def matchConstantTok (s : List Char) : Option Nat :=
  let negLen : Nat := match s with | '-' :: _ => 1 | _ => 0
  let s1 := s.drop negLen
  let sp := spaceSpan s1
  let s2 := s1.drop sp
  let dg := digitSpan s2
  if dg = 0 then none
  else
    match s2.drop dg with
    | [] => some (negLen + sp + dg)
    | c :: _ => if isWordChar c then none else some (negLen + sp + dg)

/-- Match `\S` at the head. -/
def matchAnyTok : List Char → Option Nat
  | [] => none
  | c :: _ => if isPySpace c then none else some 1

/-- One step of the combined alternation, most specific first. -/
def tryMatch (s : List Char) : Option Nat :=
  match matchCombatTok s with
  | some n => some n
  | none =>
    match matchPostfixTok s with
    | some n => some n
    | none =>
      match matchDiceTok s with
      | some n => some n
      | none =>
        match matchConstantTok s with
        | some n => some n
        | none => matchAnyTok s

/-- Scan loop of `re.finditer`: emit the match at the current position and
continue after it, or advance one character when nothing matches.  All
alternatives match at least one character, so the fuel (the remaining
length) suffices. -/
def scanAux : Nat → List Char → List (List Char)
  | 0, _ => []
  | _, [] => []
  | fuel + 1, s =>
    match tryMatch s with
    | some n => s.take n :: scanAux fuel (s.drop n)
    | none =>
      match s with
      | [] => []
      | _ :: rest => scanAux fuel rest

/-- All token substrings of the input, in order. -/
def scanTokens (s : List Char) : List (List Char) :=
  scanAux s.length s

/-- Anchored `Constant.from_str` (`^(-?)\s*(\d+)\b$`). -/
def constantFromChars (s : List Char) : Option Tok :=
  let sign : Int := match s with | '-' :: _ => -1 | _ => 1
  let negLen : Nat := match s with | '-' :: _ => 1 | _ => 0
  let s1 := s.drop negLen
  let s2 := s1.drop (spaceSpan s1)
  let dg := digitSpan s2
  if dg = 0 then none
  else if s2.drop dg = [] then
    some (.constant (sign * Int.ofNat (digitsToNat (s2.take dg))))
  else none

/-- Anchored `Dice.from_str` (`^(\d+)d(\d+)$`). -/
def diceFromChars (s : List Char) : Option Tok :=
  let d1 := digitSpan s
  if d1 = 0 then none
  else
    match s.drop d1 with
    | 'd' :: rest =>
      let d2 := digitSpan rest
      if d2 = 0 then none
      else if rest.drop d2 = [] then
        some (.dice (Int.ofNat (digitsToNat (s.take d1)))
          (Int.ofNat (digitsToNat (rest.take d2))))
      else none
    | _ => none

/-- Anchored `PostfixOperator.from_str`: operator head, optional count
(defaulting to 1, `int(count or '1')`), and the keep-type dispatch table. -/
def postfixFromChars (s : List Char) : Option Tok :=
  match matchOperHead s with
  | none => none
  | some n =>
    let op := s.take n
    let rest := s.drop n
    let dg := digitSpan rest
    if rest.drop dg ≠ [] then none
    else
      let cnt : Int := if dg = 0 then 1 else Int.ofNat (digitsToNat (rest.take dg))
      if op = ['h'] || op = ['k', 'h'] then some (.keepHighest cnt)
      else if op = ['l'] || op = ['k', 'l'] then some (.keepLowest cnt)
      else if op = ['>', '='] then some (.ge cnt)
      else if op = ['>'] then some (.gt cnt)
      else if op = ['<', '='] then some (.le cnt)
      else if op = ['<'] then some (.lt cnt)
      else if op = ['<', '-'] then some (.critLE cnt)
      else if op = ['-', '>'] then some (.critGE cnt)
      else none

/-- Anchored `Combat.from_str` (`^(\d*)c$`, count defaulting to 1). -/
def combatFromChars (s : List Char) : Option Tok :=
  let dg := digitSpan s
  match s.drop dg with
  | ['c'] =>
    some (.combat (if dg = 0 then 1 else Int.ofNat (digitsToNat (s.take dg))))
  | _ => none

/-- Conversion `Token.from_str`: the three singleton tokens first, then the
`Token` subclasses in definition order (Constant, Dice, PostfixOperator,
Combat), else the `Unknown token` error that tokenize wraps in a
TokenizeError. -/
def tokenFromChars (s : List Char) : Except String Tok :=
  if s = ['+'] then .ok .add
  else if s = ['('] then .ok .groupStart
  else if s = [')'] then .ok .groupEnd
  else
    match constantFromChars s with
    | some t => .ok t
    | none =>
      match diceFromChars s with
      | some t => .ok t
      | none =>
        match postfixFromChars s with
        | some t => .ok t
        | none =>
          match combatFromChars s with
          | some t => .ok t
          | none => .error ("Unknown token " ++ String.mk s)

/-- Tokenizer `parser.tokenize`: lowercase, scan, convert. -/
def tokenize (s : String) : Except String (List Tok) :=
  (scanTokens (s.data.map Char.toLower)).mapM tokenFromChars

/-- Full pipeline: tokenize then evaluate, the composition exposed by
`diceydice.eval_expr` (result and roll rendering aside). -/
def evalExpr (s : String) (rng : RNG) : Except String DiceComputation :=
  match tokenize s with
  | .error e => .error e
  | .ok toks => evalSummation rng toks

/-- Deterministic source always returning the die's side count (the test
suite's `predictable_rng`). -/
def rngMax : RNG := fun _ sides => sides

/-- Deterministic source always returning 1. -/
def rngOne : RNG := fun _ _ => 1

/-!
Support lemmas about the marking passes.  `KeepSelected.__call__` walks the
children and removes each match from the kept list, so any kept list that is
a permutation of the children's keys marks every child.
-/

theorem entries_map_snd : ∀ l : List DiceComputation, (entries l).map (·.2) = l.map value
  | [] => rfl
  | c :: cs => by simp [entries, entries_map_snd cs]

theorem entries_map_fst : ∀ l : List DiceComputation, (entries l).map (·.1) = l.map key
  | [] => rfl
  | c :: cs => by simp [entries, entries_map_fst cs]

theorem entries_length (l : List DiceComputation) : (entries l).length = l.length := by
  have h := congrArg List.length (entries_map_snd l)
  simpa using h

/-- Marking with a kept list that is a permutation of the children's keys
yields every child's value. -/
theorem markKeep_perm :
    ∀ (l : List Entry) (kept : List CompKey), kept.Perm (l.map (·.1)) →
      markKeep kept l = l.map (·.2)
  | [], kept, h => by
    have : kept = [] := h.eq_nil
    simp [this, markKeep]
  | e :: rest, kept, h => by
    have hmem : e.1 ∈ kept := h.mem_iff.mpr (List.mem_cons_self _ _)
    have herase : (kept.erase e.1).Perm (rest.map (·.1)) := by
      have h2 := h.erase e.1
      rwa [List.map_cons, List.erase_cons_head] at h2
    simp only [markKeep, if_pos hmem, List.map_cons]
    rw [markKeep_perm rest (kept.erase e.1) herase]

/-- The identity transformer maps every child to its own value. -/
theorem applyTf_id (l : List Entry) : applyTf idTf l = l.map (·.2) := by
  simpa [applyTf, idTf, selectEntries] using markKeep_perm l (l.map (·.1)) (List.Perm.refl _)

/-- Value of an identity group: the sum of its children's values
(regardless of the closed flag). -/
theorem value_group_id (l : List DiceComputation) (c : Bool) :
    value (.group l idTf c) = (l.map value).sum := by
  rw [value, applyTf_id, entries_map_snd]

/-- Keys determine values: the value stored in an entry built by `entries`
is recoverable from the key. -/
theorem value_eq_valOf_key : ∀ c : DiceComputation, value c = (key c).valOf
  | .die _ _ => rfl
  | .combat _ _ => rfl
  | .modifier _ => rfl
  | .group _ _ _ => rfl

theorem entries_snd_eq_valOf (l : List DiceComputation) :
    ∀ e ∈ entries l, e.2 = e.1.valOf := by
  induction l with
  | nil => intro e he; cases he
  | cons c cs ih =>
    intro e he
    rw [entries] at he
    rcases List.mem_cons.mp he with he | he
    · subst he; exact value_eq_valOf_key c
    · exact ih e he

/-- Counting pass against a filter whose predicate depends only on the key:
each child contributes according to its own test and its own crit
override. -/
theorem markCount_filter (fmin fmax : Option Number) (qk : CompKey → Bool) :
    ∀ l : List Entry,
      markCount fmin fmax ((l.filter (fun e => qk e.1)).map (·.1)) l
        = l.map (fun e =>
            match critOverride fmin fmax e.1 with
            | none => if qk e.1 then ((1 : Int), (0 : Int)) else (0, 0)
            | some v =>
              if v = (0, 0) then (if qk e.1 then (1, 0) else (0, 0)) else v) := by
  intro l
  induction l with
  | nil => rfl
  | cons e rest ih =>
    by_cases hq : qk e.1 = true
    · have hkept : ((e :: rest).filter (fun x => qk x.1)).map (·.1)
          = e.1 :: (rest.filter (fun x => qk x.1)).map (·.1) := by
        simp [List.filter_cons, hq]
      have hmem : e.1 ∈ ((e :: rest).filter (fun x => qk x.1)).map (·.1) := by
        rw [hkept]; exact List.mem_cons_self _ _
      simp only [markCount, hkept, List.map_cons]
      rw [if_pos (List.mem_cons_self _ _), if_pos (List.mem_cons_self _ _),
        List.erase_cons_head, ih]
      simp [hq]
    · have hq2 : qk e.1 = false := by simpa using hq
      have hkept : ((e :: rest).filter (fun x => qk x.1)).map (·.1)
          = (rest.filter (fun x => qk x.1)).map (·.1) := by
        simp [List.filter_cons, hq2]
      have hnm : e.1 ∉ (rest.filter (fun x => qk x.1)).map (·.1) := by
        intro hin
        rcases List.mem_map.mp hin with ⟨e2, he2, hkey⟩
        have := List.of_mem_filter he2
        rw [hkey, hq2] at this
        cases this
      simp only [markCount, hkept, List.map_cons]
      rw [if_neg hnm, if_neg hnm, ih]
      simp [hq2]

/-- Push of a single atom token as `eval_summation` performs it: dice and
combat atoms roll and consume rng draws, a constant becomes a `Modifier`
without drawing. -/
def evalAtom : Tok → RNG → Nat → DiceComputation × Nat
  | .dice c s, rng, ctr => evaluateDice c s rng ctr
  | .combat c, rng, ctr => evaluateCombat c rng ctr
  | .constant v, _, ctr => (.modifier v, ctr)
  | _, _, ctr => (.modifier 0, ctr)

/-- C1: with the always-maximum deterministic source, "2d20" evaluates to
magnitude 40; "2d20h" to magnitude 20 with exactly one kept child index;
"3d20<-10" to magnitude 0 with effects 3; and with the always-1 source,
"2d20" evaluates to magnitude 2. -/
theorem claim_C1_deterministic_eval_examples :
    (evalExpr "2d20" rngMax).map resultOf = .ok 40
    ∧ (evalExpr "2d20h" rngMax).map (fun c => (resultOf c, keptIndexes c)) = .ok (20, [0])
    ∧ (evalExpr "3d20<-10" rngMax).map (fun c => (resultOf c, effectsOf c)) = .ok (0, 3)
    ∧ (evalExpr "2d20" rngOne).map resultOf = .ok 2 :=
  ⟨rfl, rfl, rfl, rfl⟩

/-- C2: a combat-dice expression rolls its count of six-sided dice (one rng
draw of 6 sides per die, in order) and maps each raw face through the fixed
combat-die table: 1 gives magnitude 1 and no effect, 2 gives magnitude 2,
3 and 4 give magnitude 0, 5 and 6 give magnitude 1 with the effect flag. -/
theorem claim_C2_combat_dice_table :
    (∀ (n : Int) (rng : RNG),
      evalSummation rng [.combat n]
        = .ok (.group ((List.range n.toNat).map fun i => combatFromD6 (rng i 6)) idTf true))
    ∧ combatFromD6 1 = .combat 1 false
    ∧ combatFromD6 2 = .combat 2 false
    ∧ combatFromD6 3 = .combat 0 false
    ∧ combatFromD6 4 = .combat 0 false
    ∧ combatFromD6 5 = .combat 1 true
    ∧ combatFromD6 6 = .combat 1 true
    ∧ (∀ (r : Int) (e : Bool), value (.combat r e) = (r, if e then 1 else 0)) := by
  refine ⟨?_, rfl, rfl, rfl, rfl, rfl, rfl, fun r e => rfl⟩
  intro n rng
  simp [evalSummation, evalSumAux, evaluateCombat, evaluateGroup, evalGroupAux,
    addComputation, truthy, close, idTf]

/-- C3 counterexample: a keep postfix applied to an already-closed group
does not fail; "(2d20)h" evaluates successfully, rebuilding the group with
a keep-highest transformer over its children. -/
theorem claim_C3_closed_group_counterexample :
    evalExpr "(2d20)h" rngMax
      = .ok (.group [.die 20 20, .die 20 20] (.keep (.highest 1)) true)
    ∧ ∀ msg : String, evalExpr "(2d20)h" rngMax ≠ .error msg :=
  ⟨rfl, fun _ h => Except.noConfusion h⟩

/-- C3 amended: a keep or threshold postfix applied to a bare constant
fails with the documented semantic error, while a postfix applied to an
already-closed group succeeds, applying the selector to the group's
children. -/
theorem claim_C3_postfix_operand_policy (v : Int) (rng : RNG) (pf : Tok)
    (hpf : isPostfixTok pf = true) :
    evalSummation rng [.constant v, pf]
      = .error (tokStr pf ++ " operator must follow dice roll or group")
    ∧ evalExpr "(2d20)h" rngMax
      = .ok (.group [.die 20 20, .die 20 20] (.keep (.highest 1)) true) := by
  refine ⟨?_, rfl⟩
  cases pf <;> first
    | rfl
    | exact absurd hpf (by simp [isPostfixTok])

/-- C3 witness: the operand policy at the constant 5 with keep-highest 1. -/
theorem claim_C3_postfix_operand_policy_witness :
    evalSummation rngMax [.constant 5, .keepHighest 1]
      = .error "kh1 operator must follow dice roll or group"
    ∧ evalExpr "(2d20)h" rngMax
      = .ok (.group [.die 20 20, .die 20 20] (.keep (.highest 1)) true) :=
  claim_C3_postfix_operand_policy 5 rngMax (.keepHighest 1) rfl

/-- C4: the tokenizer of parser.py has no binary minus token, so "a - b"
with a dice term on the right fails to tokenize ("Unknown token -"), in
contradiction with the spec and with the repository's own test suite
(tests/test_parser.py expects `[FlatNumber(20), Token.SUB, Dice(1, 4)]`
for "20 - 1d4").  Subtraction only works when the right side is a bare
integer, which scans as a negative `Constant`. -/
theorem claim_C4_no_subtraction_token :
    tokenize "20 - 1d4" = .error "Unknown token -"
    ∧ tokenize "1d20 - 1d4" = .error "Unknown token -"
    ∧ tokenize "3d20 - 42" = .ok [.dice 3 20, .constant (-42)]
    ∧ (evalExpr "3d20 - 42" rngMax).map resultOf = .ok 18 :=
  ⟨rfl, rfl, rfl, rfl⟩

/-- C9: the tokenizer maps "1d20" to exactly one Dice(1,20) token,
"2d20h3" to Dice(2,20) followed by KeepHighest(3), and "-13" to the single
constant -13. -/
theorem claim_C9_tokenize_examples :
    tokenize "1d20" = .ok [.dice 1 20]
    ∧ tokenize "2d20h3" = .ok [.dice 2 20, .keepHighest 3]
    ∧ tokenize "-13" = .ok [.constant (-13)] :=
  ⟨rfl, rfl, rfl⟩

/-- C5: postfix operators bind tighter than infix: for any atom tokens a, b
and postfix token pf, evaluating `a + b pf` applies the postfix to the
evaluation of b alone and then adds; concretely "1d20+1d4h" evaluates (with
the always-maximum source) to 20 + 4 while keep-highest over the whole sum
"(1d20+1d4)h" evaluates to 20. -/
theorem isAtomTok_cases {a : Tok} (h : isAtomTok a = true) :
    (∃ c s, a = .dice c s) ∨ (∃ c, a = .combat c) ∨ (∃ v, a = .constant v) := by
  cases a <;> simp [isAtomTok] at h <;> simp

theorem isPostfixTok_cases {a : Tok} (h : isPostfixTok a = true) :
    (∃ n, a = .keepHighest n) ∨ (∃ n, a = .keepLowest n)
    ∨ (∃ n, a = .ge n) ∨ (∃ n, a = .gt n)
    ∨ (∃ n, a = .le n) ∨ (∃ n, a = .lt n)
    ∨ (∃ n, a = .critGE n) ∨ (∃ n, a = .critLE n) ∨ (∃ n, a = .eqOp n) := by
  cases a <;> simp [isPostfixTok] at h <;> simp

theorem claim_C5_postfix_binds_tighter (rng : RNG) (a b pf : Tok)
    (ha : isAtomTok a = true) (hb : isAtomTok b = true)
    (hpf : isPostfixTok pf = true) :
    evalSummation rng [a, .add, b, pf]
      = (match applyPostfixOp (.inr (evalAtom b rng (evalAtom a rng 0).2).1) pf with
         | .error e => .error e
         | .ok bp =>
           match evaluateGroup rng [.inr (evalAtom a rng 0).1, .inr bp]
               (evalAtom b rng (evalAtom a rng 0).2).2 with
           | .error e => .error e
           | .ok (g, _) => .ok g)
    ∧ (evalExpr "1d20+1d4h" rngMax).map resultOf = .ok (20 + 4)
    ∧ (evalExpr "(1d20+1d4)h" rngMax).map resultOf = .ok 20 := by
  refine ⟨?_, rfl, rfl⟩
  rcases isAtomTok_cases ha with ⟨c1, s1, rfl⟩ | ⟨c1, rfl⟩ | ⟨v1, rfl⟩ <;>
    rcases isAtomTok_cases hb with ⟨c2, s2, rfl⟩ | ⟨c2, rfl⟩ | ⟨v2, rfl⟩ <;>
    rcases isPostfixTok_cases hpf with ⟨n, rfl⟩ | ⟨n, rfl⟩ | ⟨n, rfl⟩ | ⟨n, rfl⟩
      | ⟨n, rfl⟩ | ⟨n, rfl⟩ | ⟨n, rfl⟩ | ⟨n, rfl⟩ | ⟨n, rfl⟩ <;>
    rfl

/-- C5 witness: the binding-power law at "1d20 + 1d4 kh1" with the
always-maximum source. -/
theorem claim_C5_postfix_binds_tighter_witness :
    evalSummation rngMax [.dice 1 20, .add, .dice 1 4, .keepHighest 1]
      = (match applyPostfixOp
            (.inr (evalAtom (.dice 1 4) rngMax (evalAtom (.dice 1 20) rngMax 0).2).1)
            (.keepHighest 1) with
         | .error e => .error e
         | .ok bp =>
           match evaluateGroup rngMax
               [.inr (evalAtom (.dice 1 20) rngMax 0).1, .inr bp]
               (evalAtom (.dice 1 4) rngMax (evalAtom (.dice 1 20) rngMax 0).2).2 with
           | .error e => .error e
           | .ok (g, _) => .ok g)
    ∧ (evalExpr "1d20+1d4h" rngMax).map resultOf = .ok (20 + 4)
    ∧ (evalExpr "(1d20+1d4)h" rngMax).map resultOf = .ok 20 :=
  claim_C5_postfix_binds_tighter rngMax (.dice 1 20) (.dice 1 4) (.keepHighest 1)
    rfl rfl rfl

/-- C6 counterexample: adding an empty computation to a closed group
returns the closed group itself unchanged (the no-op branch of
`add_computation`), not a new enclosing group containing it as a child. -/
theorem claim_C6_closed_group_counterexample :
    addComputation (.group [.die 6 6] idTf true) (.group [] idTf false)
      = .ok (.group [.die 6 6] idTf true)
    ∧ addComputation (.group [] idTf false) (.group [.die 6 6] idTf true)
      = .ok (.group [.die 6 6] idTf true)
    ∧ DiceComputation.group [.die 6 6] idTf true
        ∉ diceOf (.group [.die 6 6] idTf true) := by
  refine ⟨rfl, rfl, ?_⟩
  intro h
  rw [diceOf] at h
  rcases List.mem_singleton.mp h with h2
  exact DiceComputation.noConfusion h2

/-- C6 amended: a closed nonempty group g never absorbs further children
through addition: adding g and any truthy computation c (leaves are always
truthy; a group is truthy when nonempty), in either order, returns a new
open identity group that contains g itself as a child. -/
theorem claim_C6_closed_group_isolation (d : List DiceComputation)
    (tf : Transformer) (c : DiceComputation)
    (hd : d ≠ []) (hc : truthy c = true) :
    (∃ l, addComputation (.group d tf true) c = .ok (.group l idTf false)
       ∧ DiceComputation.group d tf true ∈ l)
    ∧ (∃ l, addComputation c (.group d tf true) = .ok (.group l idTf false)
       ∧ DiceComputation.group d tf true ∈ l) := by
  have hg : truthy (.group d tf true) = true := by simp [truthy, hd]
  have hgc : isClosedGroup (.group d tf true) = true := rfl
  constructor
  · by_cases hcc : isClosedGroup c = true
    · refine ⟨[.group d tf true, c], ?_, List.mem_cons_self _ _⟩
      simp [addComputation, hg, hc, hgc, hcc]
    · refine ⟨.group d tf true :: diceList c, ?_, List.mem_cons_self _ _⟩
      simp [addComputation, hg, hc, hgc, hcc]
  · by_cases hcc : isClosedGroup c = true
    · refine ⟨[c, .group d tf true], ?_, by simp⟩
      simp [addComputation, hg, hc, hgc, hcc]
    · refine ⟨diceList c ++ [.group d tf true], ?_, by simp⟩
      simp [addComputation, hg, hc, hgc, hcc]

/-- Pointwise-equal functions map lists equally. -/
theorem map_ext {α β : Type} (f g : α → β) (h : ∀ a, f a = g a) :
    ∀ l : List α, l.map f = l.map g
  | [] => rfl
  | a :: l => by simp [h a, map_ext f g h l]

/-- C7: "1d2+(1d4+1d6)" and "(1d2+1d4)+1d6" evaluate to the same total
magnitude — the sum of the three draws — for every randomness source:
in both, draw 0 is the d2, draw 1 the d4 and draw 2 the d6, even though
the resulting group trees differ in shape. -/
theorem claim_C7_grouping_magnitude (rng : RNG) :
    (evalExpr "1d2+(1d4+1d6)" rng).map resultOf
      = .ok (rng 0 2 + rng 1 4 + rng 2 6)
    ∧ (evalExpr "(1d2+1d4)+1d6" rng).map resultOf
      = .ok (rng 0 2 + rng 1 4 + rng 2 6) := by
  have h1 : evalExpr "1d2+(1d4+1d6)" rng
      = .ok (.group [.die 2 (rng 0 2),
          .group [.die 4 (rng 1 4), .die 6 (rng 2 6)] idTf true] idTf true) := rfl
  have h2 : evalExpr "(1d2+1d4)+1d6" rng
      = .ok (.group [.group [.die 2 (rng 0 2), .die 4 (rng 1 4)] idTf true,
          .die 6 (rng 2 6)] idTf true) := rfl
  constructor
  · rw [h1]
    simp only [Except.map, resultOf, value_group_id, List.map_cons, List.map_nil]
    simp [value, List.sum_cons, Prod.mk_add_mk, add_assoc]
  · rw [h2]
    simp only [Except.map, resultOf, value_group_id, List.map_cons, List.map_nil]
    simp [value, List.sum_cons, Prod.mk_add_mk, add_assoc]

/-- Keeping with a sorted-take selection whose count covers the whole list
marks every child with its own value. -/
theorem markKeep_sort_take (r : Entry → Entry → Prop) [DecidableRel r]
    (l : List Entry) (n : Nat) (h : l.length ≤ n) :
    markKeep (((List.insertionSort r l).take n).map (·.1)) l = l.map (·.2) := by
  rw [List.take_of_length_le (by rw [List.length_insertionSort]; exact h)]
  exact markKeep_perm l _ ((List.perm_insertionSort r l).map _)

/-- C8: `Highest` and `Lowest` reject a non-positive count at construction
with the documented error; a keep selector whose count is at least the
number of children present keeps every child, so the group's value is the
full sum of its children's values, with no error. -/
theorem claim_C8_selector_count_policy :
    (∀ n : Int, n < 1 →
      mkHighest n = .error "Cannot keep less than one die"
      ∧ mkLowest n = .error "Cannot keep less than one die")
    ∧ (∀ (l : List DiceComputation) (n : Int) (cl : Bool), l.length ≤ n.toNat →
      value (.group l (.keep (.highest n)) cl) = (l.map value).sum
      ∧ value (.group l (.keep (.lowest n)) cl) = (l.map value).sum) := by
  constructor
  · intro n h
    constructor <;> simp [mkHighest, mkLowest, h]
  · intro l n cl h
    have hlen : (entries l).length ≤ n.toNat := by rw [entries_length]; exact h
    constructor
    · show (applyTf (.keep (.highest n)) (entries l)).sum = _
      rw [show applyTf (.keep (.highest n)) (entries l)
          = markKeep (((List.insertionSort descRel (entries l)).take n.toNat).map (·.1))
            (entries l) from rfl]
      rw [markKeep_sort_take descRel (entries l) n.toNat hlen, entries_map_snd]
    · show (applyTf (.keep (.lowest n)) (entries l)).sum = _
      rw [show applyTf (.keep (.lowest n)) (entries l)
          = markKeep (((List.insertionSort ascRel (entries l)).take n.toNat).map (·.1))
            (entries l) from rfl]
      rw [markKeep_sort_take ascRel (entries l) n.toNat hlen, entries_map_snd]

/-- C8 witness: count 0 is rejected and keeping 5 of 2 dice keeps both. -/
theorem claim_C8_selector_count_policy_witness :
    (mkHighest 0 = .error "Cannot keep less than one die"
     ∧ mkLowest 0 = .error "Cannot keep less than one die")
    ∧ (value (.group [.die 6 6, .die 6 4] (.keep (.highest 5)) false)
         = ([DiceComputation.die 6 6, .die 6 4].map value).sum
       ∧ value (.group [.die 6 6, .die 6 4] (.keep (.lowest 5)) false)
         = ([DiceComputation.die 6 6, .die 6 4].map value).sum) :=
  ⟨claim_C8_selector_count_policy.1 0 (by decide),
   claim_C8_selector_count_policy.2 [.die 6 6, .die 6 4] 5 false (by decide)⟩

/-- Entry list of a list of plain die rolls. -/
theorem entries_die_map : ∀ sr : List (Int × Int),
    entries (sr.map fun p => .die p.1 p.2)
      = sr.map (fun p => (CompKey.die p.1 p.2, ((p.2 : Int), (0 : Int))))
  | [] => rfl
  | p :: ps => by simp [entries, key, value, entries_die_map ps]

/-- Count transformer over entries: each child contributes its own
threshold test or its own crit override (the threshold selector filters by
value, which the key determines). -/
theorem applyTf_count_threshold (op : Oper) (t : Int) (fmin fmax : Option Number)
    (l : List DiceComputation) :
    applyTf (.count (.threshold op t) fmin fmax) (entries l)
      = (entries l).map (fun e =>
          match critOverride fmin fmax e.1 with
          | none => if opApply op e.1.valOf.1 t then ((1 : Int), (0 : Int)) else (0, 0)
          | some v =>
            if v = (0, 0) then (if opApply op e.1.valOf.1 t then (1, 0) else (0, 0))
            else v) := by
  have hfil : (entries l).filter (fun e => opApply op e.2.1 t)
      = (entries l).filter (fun e => opApply op e.1.valOf.1 t) := by
    apply List.filter_congr
    intro e he
    rw [entries_snd_eq_valOf l e he]
  show markCount fmin fmax
      (((entries l).filter (fun e => opApply op e.2.1 t)).map (·.1)) (entries l) = _
  rw [hfil]
  exact markCount_filter fmin fmax (fun k => opApply op k.valOf.1 t) (entries l)

theorem critLE_elem (t : Int) (p : Int × Int) :
    (match critOverride (some (2, 0)) (some (0, 1)) (CompKey.die p.1 p.2) with
     | none =>
       if opApply .le (CompKey.die p.1 p.2).valOf.1 t then ((1 : Int), (0 : Int))
       else (0, 0)
     | some v =>
       if v = (0, 0) then
         (if opApply .le (CompKey.die p.1 p.2).valOf.1 t then (1, 0) else (0, 0))
       else v)
    = if p.2 = 1 then ((2 : Int), (0 : Int))
      else if p.2 = p.1 then (0, 1)
      else if p.2 ≤ t then (1, 0) else (0, 0) := by
  by_cases h1 : p.2 = 1
  · simp [critOverride, h1]
  · by_cases hs : p.2 = p.1
    · rw [hs] at h1
      simp [critOverride, hs, h1]
    · simp [critOverride, h1, hs, opApply, CompKey.valOf]

theorem critGE_elem (t : Int) (p : Int × Int) :
    (match critOverride (some (0, 1)) (some (2, 0)) (CompKey.die p.1 p.2) with
     | none =>
       if opApply .ge (CompKey.die p.1 p.2).valOf.1 t then ((1 : Int), (0 : Int))
       else (0, 0)
     | some v =>
       if v = (0, 0) then
         (if opApply .ge (CompKey.die p.1 p.2).valOf.1 t then (1, 0) else (0, 0))
       else v)
    = if p.2 = 1 then ((0 : Int), (1 : Int))
      else if p.2 = p.1 then (2, 0)
      else if t ≤ p.2 then (1, 0) else (0, 0) := by
  by_cases h1 : p.2 = 1
  · simp [critOverride, h1]
  · by_cases hs : p.2 = p.1
    · rw [hs] at h1
      simp [critOverride, hs, h1]
    · simp [critOverride, h1, hs, opApply, CompKey.valOf]

/-- C10: the `<-N` operator builds a count transformer forcing natural 1 to
(2, 0) and natural maximum to (0, 1); `->N` builds the swapped overrides;
over any group of die rolls the resulting contributions are: natural 1
gives magnitude 2 with no effect under crit-LE (magnitude 0 with one effect
under crit-GE), a natural maximum (of a die with at least 2 sides, so not a
natural 1) gives the opposite override, and every non-crit die contributes
1 exactly when it satisfies the comparison. -/
theorem claim_C10_crit_override_table (sr : List (Int × Int)) (t : Int) :
    (∀ (d : List DiceComputation) (tf : Transformer) (cl : Bool),
      applyPostfixOp (.inr (.group d tf cl)) (.critLE t)
        = .ok (.group d (.count (.threshold .le t) (some (2, 0)) (some (0, 1))) false)
      ∧ applyPostfixOp (.inr (.group d tf cl)) (.critGE t)
        = .ok (.group d (.count (.threshold .ge t) (some (0, 1)) (some (2, 0))) false))
    ∧ applyTf (.count (.threshold .le t) (some (2, 0)) (some (0, 1)))
        (entries (sr.map fun p => .die p.1 p.2))
      = sr.map (fun p =>
          if p.2 = 1 then ((2 : Int), (0 : Int))
          else if p.2 = p.1 then (0, 1)
          else if p.2 ≤ t then (1, 0) else (0, 0))
    ∧ applyTf (.count (.threshold .ge t) (some (0, 1)) (some (2, 0)))
        (entries (sr.map fun p => .die p.1 p.2))
      = sr.map (fun p =>
          if p.2 = 1 then ((0 : Int), (1 : Int))
          else if p.2 = p.1 then (2, 0)
          else if t ≤ p.2 then (1, 0) else (0, 0)) := by
  refine ⟨fun d tf cl => ⟨rfl, rfl⟩, ?_, ?_⟩
  · rw [applyTf_count_threshold, entries_die_map, List.map_map]
    exact map_ext _ _ (critLE_elem t) sr
  · rw [applyTf_count_threshold, entries_die_map, List.map_map]
    exact map_ext _ _ (critGE_elem t) sr

/-- C6 witness: closed-group isolation for a one-die closed group and a
modifier. -/
theorem claim_C6_closed_group_isolation_witness :
    (∃ l, addComputation (.group [.die 6 6] idTf true) (.modifier 5)
        = .ok (.group l idTf false)
      ∧ DiceComputation.group [.die 6 6] idTf true ∈ l)
    ∧ (∃ l, addComputation (.modifier 5) (.group [.die 6 6] idTf true)
        = .ok (.group l idTf false)
      ∧ DiceComputation.group [.die 6 6] idTf true ∈ l) :=
  claim_C6_closed_group_isolation [.die 6 6] idTf (.modifier 5)
    (by simp) rfl

end Diceydice
